import Mathlib

/-!
# Native bridge layer of `geo_location_provider`

A shallow embedding of the two native entry points of the repository,

* `JNI_OnLoad` (`app/src/main/cpp/drive_uploader.cpp`), the library-load hook, and
* `Java_com_mapconductor_plugin_provider_geolocation_NativeBridge_concatWorld`
  (`app/src/main/cpp/sample.cpp`), the string bridge function,

followed by the theorems that settle the properties stated about them.

Both functions talk to the host runtime only through JNI calls and the Android log.
The host is not part of the repository, so it is embedded as explicit state: every call the
code makes is appended to a trace, and what the host answers (`GetEnv` status, the pointer
`GetStringUTFChars` yields) is a field of the host value, left arbitrary in the theorems.
`char` values are natural numbers, `0` being the terminating NUL.
-/

namespace GeoLocationProvider

/-! ## C strings and `std::string` -/

/-- A `const char*`: an address together with the bytes stored from that address on. -/
structure CharPtr where
  addr : Nat
  mem : List Nat
deriving DecidableEq, Repr

/-- The characters a C-string read finds behind a pointer: everything before the first NUL
(a buffer holding no NUL is read to its end). -/
def cstr (mem : List Nat) : List Nat :=
  mem.takeWhile (fun b => b != 0)

/-- The constructor `std::string(const char*)`: copies the characters up to the first NUL. -/
def std_string (p : CharPtr) : List Nat :=
  cstr p.mem

/-- The buffer `std::string::c_str()` exposes: the characters followed by a NUL. -/
def c_str (s : List Nat) : List Nat :=
  s ++ [0]

/-- The characters of an ASCII C string literal, without its terminating NUL. -/
def literal (s : String) : List Nat :=
  s.toList.map Char.toNat

/-! ## The host environment seen through `JNIEnv*` -/

/-- A `jstring`: `none` is the null reference, `some r` refers to host string object `r`. -/
abbrev jstring := Option Nat

/-- The JNI calls `concatWorld` can make, with their arguments. -/
inductive JniCall where
  | GetStringUTFChars (input : jstring)
  | ReleaseStringUTFChars (input : jstring) (chars : CharPtr)
  | NewStringUTF (bytes : List Nat)
deriving DecidableEq, Repr

/-- Host state behind a `JNIEnv*`.
`chars` is what `GetStringUTFChars` yields for a string handle (`none` is `nullptr`),
`objects` holds the character content of the strings created by `NewStringUTF`,
and `calls` records every JNI call made so far, oldest first. -/
structure JNIEnv where
  chars : jstring → Option CharPtr
  objects : List (List Nat)
  calls : List JniCall

/-- The call `env->GetStringUTFChars(input, nullptr)`. -/
def JNIEnv.GetStringUTFChars (env : JNIEnv) (input : jstring) : Option CharPtr × JNIEnv :=
  (env.chars input, { env with calls := env.calls ++ [JniCall.GetStringUTFChars input] })

/-- The call `env->ReleaseStringUTFChars(input, chars)`. -/
def JNIEnv.ReleaseStringUTFChars (env : JNIEnv) (input : jstring) (chars : CharPtr) : JNIEnv :=
  { env with calls := env.calls ++ [JniCall.ReleaseStringUTFChars input chars] }

/-- The call `env->NewStringUTF(bytes)`: a fresh host string holding the C string at `bytes`. -/
def JNIEnv.NewStringUTF (env : JNIEnv) (bytes : List Nat) : jstring × JNIEnv :=
  (some env.objects.length,
   { env with
     objects := env.objects ++ [cstr bytes]
     calls := env.calls ++ [JniCall.NewStringUTF bytes] })

/-- The character content of a host string created through this environment. -/
def JNIEnv.content (env : JNIEnv) (str : jstring) : Option (List Nat) :=
  match str with
  | none => none
  | some r => env.objects[r]?

/-! ## `sample.cpp` -/

/-- The bridge function of `sample.cpp`; the unused `jclass` argument is dropped. -/
def Java_com_mapconductor_plugin_provider_geolocation_NativeBridge_concatWorld
    (env : JNIEnv) (input : jstring) : jstring × JNIEnv :=
  let (in_chars, env) := env.GetStringUTFChars input
  let s : List Nat :=
    match in_chars with
    | some p => std_string p
    | none => []
  let env :=
    match in_chars with
    | some p => env.ReleaseStringUTFChars input p
    | none => env
  let s := s ++ literal " World!!"
  env.NewStringUTF (c_str s)

/-! ## `drive_uploader.cpp` -/

/-- Status `JNI_OK` of `<jni.h>`. -/
def JNI_OK : Int := 0

/-- Status `JNI_ERR` of `<jni.h>`. -/
def JNI_ERR : Int := -1

/-- Version constant `JNI_VERSION_1_6` of `<jni.h>`. -/
def JNI_VERSION_1_6 : Int := 0x00010006

/-- Priority `ANDROID_LOG_INFO` of `<android/log.h>`. -/
def ANDROID_LOG_INFO : Int := 4

/-- Priority `ANDROID_LOG_ERROR` of `<android/log.h>`. -/
def ANDROID_LOG_ERROR : Int := 6

/-- The `LOG_TAG` of `drive_uploader.cpp`. -/
def LOG_TAG : String := "GLP-Native"

/-- What the load hook can do to the host: write a log line, ask the VM for the thread
environment, register native functions. -/
inductive HostEffect where
  | android_log_print (prio : Int) (tag : String) (msg : String)
  | GetEnv (version : Int)
  | RegisterNatives
deriving DecidableEq, Repr

/-- A `JavaVM*`: the status its `GetEnv` reports for a requested version. -/
structure JavaVM where
  GetEnv : Int → Int

/-- The load hook of `drive_uploader.cpp`. `host` is the trace of host effects so far;
the result is the returned `jint` and the extended trace. -/
def JNI_OnLoad (vm : JavaVM) (host : List HostEffect) : Int × List HostEffect :=
  let host := host ++ [HostEffect.android_log_print ANDROID_LOG_INFO LOG_TAG "driveuploader JNI_OnLoad"]
  let status := vm.GetEnv JNI_VERSION_1_6
  let host := host ++ [HostEffect.GetEnv JNI_VERSION_1_6]
  if status != JNI_OK then
    let host := host ++ [HostEffect.android_log_print ANDROID_LOG_ERROR LOG_TAG "GetEnv failed"]
    (JNI_ERR, host)
  else
    (JNI_VERSION_1_6, host)

/-- The log lines of a trace, in order. -/
def logLines (t : List HostEffect) : List HostEffect :=
  t.filter (fun e => match e with
    | HostEffect.android_log_print _ _ _ => true
    | _ => false)

/-- The log lines of a trace written at priority `prio`. -/
def logLinesAt (prio : Int) (t : List HostEffect) : List HostEffect :=
  t.filter (fun e => match e with
    | HostEffect.android_log_print p _ _ => p == prio
    | _ => false)

/-- The registrations of a trace. -/
def registrations (t : List HostEffect) : List HostEffect :=
  t.filter (fun e => match e with
    | HostEffect.RegisterNatives => true
    | _ => false)

/-- The character data the borrow of `input` yields: the C string behind the pointer,
or nothing when `GetStringUTFChars` yields `nullptr`. -/
def inputData (env : JNIEnv) (input : jstring) : Option (List Nat) :=
  (env.chars input).map (fun p => cstr p.mem)

/-- The base string `concatWorld` works on: the borrowed characters, empty without a borrow. -/
def baseString (env : JNIEnv) (input : jstring) : List Nat :=
  (inputData env input).getD []

/-- The `ReleaseStringUTFChars` calls of a trace. -/
def releases (t : List JniCall) : List JniCall :=
  t.filter (fun c => match c with
    | JniCall.ReleaseStringUTFChars _ _ => true
    | _ => false)

/-! ## Calls from several host threads

To speak about concurrent calls, the body of `concatWorld` is also given statement by
statement. A thread running the function owns a frame with the function's locals; the host
state is shared. A schedule names, step by step, the thread that executes its next statement.
-/

/-- The program points of `concatWorld`: before each of its five statements, and after the
`return`. -/
inductive Pc where
  | borrow
  | copy
  | release
  | append
  | alloc
  | returned
deriving DecidableEq, Repr

/-- The locals of one activation of `concatWorld`: the argument `input`, the program point,
the locals `in_chars` and `s`, and the returned value once the call has returned. -/
structure Frame where
  input : jstring
  pc : Pc
  in_chars : Option CharPtr
  s : List Nat
  ret : jstring

/-- The frame of a call that has just been entered with argument `input`. -/
def Frame.enter (input : jstring) : Frame :=
  { input := input, pc := Pc.borrow, in_chars := none, s := [], ret := none }

/-- One statement of `concatWorld`, executed on the shared host state and the thread's frame. -/
def Frame.step (env : JNIEnv) (f : Frame) : JNIEnv × Frame :=
  match f.pc with
  | Pc.borrow =>
    let (in_chars, env) := env.GetStringUTFChars f.input
    (env, { f with in_chars := in_chars, pc := Pc.copy })
  | Pc.copy =>
    let s : List Nat :=
      match f.in_chars with
      | some p => std_string p
      | none => []
    (env, { f with s := s, pc := Pc.release })
  | Pc.release =>
    let env :=
      match f.in_chars with
      | some p => env.ReleaseStringUTFChars f.input p
      | none => env
    (env, { f with pc := Pc.append })
  | Pc.append =>
    (env, { f with s := f.s ++ literal " World!!", pc := Pc.alloc })
  | Pc.alloc =>
    let (r, env) := env.NewStringUTF (c_str f.s)
    (env, { f with ret := r, pc := Pc.returned })
  | Pc.returned => (env, f)

/-- Thread `i` executes its next statement; a number that names no thread does nothing. -/
def stepThread (env : JNIEnv) (threads : List Frame) (i : Nat) : JNIEnv × List Frame :=
  match threads[i]? with
  | none => (env, threads)
  | some f => ((f.step env).1, threads.set i (f.step env).2)

/-- The threads run interleaved as the schedule says. -/
def runSchedule (env : JNIEnv) (threads : List Frame) : List Nat → JNIEnv × List Frame
  | [] => (env, threads)
  | i :: rest => runSchedule (stepThread env threads i).1 (stepThread env threads i).2 rest

/-- The number of statements a frame has behind it. -/
def Pc.rank : Pc → Nat
  | Pc.borrow => 0
  | Pc.copy => 1
  | Pc.release => 2
  | Pc.append => 3
  | Pc.alloc => 4
  | Pc.returned => 5

/-- What the locals of a frame hold at its program point, in terms of its own input only. -/
def FrameOK (env : JNIEnv) (f : Frame) : Prop :=
  match f.pc with
  | Pc.borrow => True
  | Pc.copy => f.in_chars = env.chars f.input
  | Pc.release => f.in_chars = env.chars f.input ∧ f.s = baseString env f.input
  | Pc.append => f.s = baseString env f.input
  | Pc.alloc => f.s = baseString env f.input ++ literal " World!!"
  | Pc.returned =>
    ∃ k, f.ret = some k ∧ env.objects[k]? = some (baseString env f.input ++ literal " World!!")

/-- Every frame is as `FrameOK` says, and no two returned frames hold the same result. -/
def ThreadsOK (env : JNIEnv) (threads : List Frame) : Prop :=
  (∀ (i : Nat) (f : Frame), threads[i]? = some f → FrameOK env f)
  ∧ (∀ (i j : Nat) (fi fj : Frame), i ≠ j → threads[i]? = some fi → threads[j]? = some fj →
      fi.pc = Pc.returned → fj.pc = Pc.returned → fi.ret ≠ fj.ret)

/-! ## Lemmas on C strings -/

theorem cstr_append_nul (s rest : List Nat) (hs : ∀ b ∈ s, b ≠ 0) :
    cstr (s ++ 0 :: rest) = s := by
  induction s with
  | nil => simp [cstr]
  | cons a t ih =>
    have ha : a ≠ 0 := hs a (List.mem_cons_self a t)
    have ht : ∀ b ∈ t, b ≠ 0 := fun b hb => hs b (List.mem_cons_of_mem a hb)
    have := ih ht
    simp only [cstr] at this ⊢
    simp [List.takeWhile_cons, ha, this]

theorem cstr_no_nul (mem : List Nat) : ∀ b ∈ cstr mem, b ≠ 0 := by
  induction mem with
  | nil => simp [cstr]
  | cons a t ih =>
    intro b hb
    by_cases ha : a = 0
    · simp [cstr, List.takeWhile_cons, ha] at hb
    · simp only [cstr] at ih hb
      simp [List.takeWhile_cons, ha] at hb
      rcases hb with hb | hb
      · exact hb ▸ ha
      · exact ih b hb

theorem literal_World : literal " World!!" = [32, 87, 111, 114, 108, 100, 33, 33] := by
  decide

theorem literal_World_no_nul : ∀ b ∈ literal " World!!", b ≠ 0 := by
  rw [literal_World]; decide

theorem cstr_c_str (s : List Nat) (hs : ∀ b ∈ s, b ≠ 0) : cstr (c_str s) = s := by
  unfold c_str
  exact cstr_append_nul s [] hs

theorem cstr_c_str_suffixed (mem : List Nat) :
    cstr (c_str (cstr mem ++ literal " World!!")) = cstr mem ++ literal " World!!" := by
  apply cstr_c_str
  intro b hb
  rcases List.mem_append.mp hb with h | h
  · exact cstr_no_nul mem b h
  · exact literal_World_no_nul b h

/-! ## What one call of `concatWorld` does -/

theorem concatWorld_result (env : JNIEnv) (input : jstring) :
    (Java_com_mapconductor_plugin_provider_geolocation_NativeBridge_concatWorld env input).1
      = some env.objects.length := by
  unfold Java_com_mapconductor_plugin_provider_geolocation_NativeBridge_concatWorld
  cases h : env.chars input <;>
    simp [JNIEnv.GetStringUTFChars, JNIEnv.ReleaseStringUTFChars, JNIEnv.NewStringUTF, h]

theorem concatWorld_objects (env : JNIEnv) (input : jstring) :
    (Java_com_mapconductor_plugin_provider_geolocation_NativeBridge_concatWorld env input).2.objects
      = env.objects ++ [baseString env input ++ literal " World!!"] := by
  unfold Java_com_mapconductor_plugin_provider_geolocation_NativeBridge_concatWorld
  cases h : env.chars input with
  | none =>
    have := cstr_c_str (literal " World!!") literal_World_no_nul
    simp [JNIEnv.GetStringUTFChars, JNIEnv.NewStringUTF, h, baseString, inputData, this]
  | some p =>
    have := cstr_c_str_suffixed p.mem
    simp [JNIEnv.GetStringUTFChars, JNIEnv.ReleaseStringUTFChars, JNIEnv.NewStringUTF, h,
      baseString, inputData, std_string, this]

theorem concatWorld_chars (env : JNIEnv) (input : jstring) :
    (Java_com_mapconductor_plugin_provider_geolocation_NativeBridge_concatWorld env input).2.chars
      = env.chars := by
  unfold Java_com_mapconductor_plugin_provider_geolocation_NativeBridge_concatWorld
  cases h : env.chars input <;>
    simp [JNIEnv.GetStringUTFChars, JNIEnv.ReleaseStringUTFChars, JNIEnv.NewStringUTF, h]

theorem concatWorld_calls (env : JNIEnv) (input : jstring) :
    (Java_com_mapconductor_plugin_provider_geolocation_NativeBridge_concatWorld env input).2.calls
      = env.calls ++ [JniCall.GetStringUTFChars input]
          ++ (match env.chars input with
              | some p => [JniCall.ReleaseStringUTFChars input p]
              | none => [])
          ++ [JniCall.NewStringUTF (c_str (baseString env input ++ literal " World!!"))] := by
  unfold Java_com_mapconductor_plugin_provider_geolocation_NativeBridge_concatWorld
  cases h : env.chars input <;>
    simp [JNIEnv.GetStringUTFChars, JNIEnv.ReleaseStringUTFChars, JNIEnv.NewStringUTF, h,
      baseString, inputData, std_string]

theorem concatWorld_content (env : JNIEnv) (input : jstring) :
    (Java_com_mapconductor_plugin_provider_geolocation_NativeBridge_concatWorld env input).2.content
      (Java_com_mapconductor_plugin_provider_geolocation_NativeBridge_concatWorld env input).1
      = some (baseString env input ++ literal " World!!") := by
  rw [concatWorld_result]
  simp [JNIEnv.content, concatWorld_objects]

theorem concatWorld_fresh (env : JNIEnv) (input : jstring) :
    env.content
      (Java_com_mapconductor_plugin_provider_geolocation_NativeBridge_concatWorld env input).1
      = none := by
  rw [concatWorld_result]
  simp [JNIEnv.content]

theorem concatWorld_keeps (env : JNIEnv) (input str : jstring) (c : List Nat)
    (h : env.content str = some c) :
    (Java_com_mapconductor_plugin_provider_geolocation_NativeBridge_concatWorld env input).2.content
      str = some c := by
  cases str with
  | none => simp [JNIEnv.content] at h
  | some r =>
    simp only [JNIEnv.content, concatWorld_objects] at h ⊢
    have hr : r < env.objects.length := by
      rcases List.getElem?_eq_some_iff.mp h with ⟨hr, _⟩
      exact hr
    rw [List.getElem?_append_left hr]
    exact h

/-! ## Interleaved calls -/

theorem Frame.step_chars (env : JNIEnv) (f : Frame) : (f.step env).1.chars = env.chars := by
  rcases f with ⟨input, pc, in_chars, s, ret⟩
  cases pc <;> cases in_chars <;>
    simp [Frame.step, JNIEnv.GetStringUTFChars, JNIEnv.ReleaseStringUTFChars,
      JNIEnv.NewStringUTF]

theorem Frame.step_input (env : JNIEnv) (f : Frame) : (f.step env).2.input = f.input := by
  rcases f with ⟨input, pc, in_chars, s, ret⟩
  cases pc <;> simp [Frame.step, JNIEnv.GetStringUTFChars, JNIEnv.NewStringUTF]

theorem Frame.step_rank (env : JNIEnv) (f : Frame) :
    (f.step env).2.pc.rank = min 5 (f.pc.rank + 1) := by
  rcases f with ⟨input, pc, in_chars, s, ret⟩
  cases pc <;> simp [Frame.step, JNIEnv.GetStringUTFChars, JNIEnv.NewStringUTF, Pc.rank]

theorem Frame.step_objects (env : JNIEnv) (f : Frame) :
    ∃ extra, (f.step env).1.objects = env.objects ++ extra := by
  rcases f with ⟨input, pc, in_chars, s, ret⟩
  cases pc <;> cases in_chars <;>
    simp [Frame.step, JNIEnv.GetStringUTFChars, JNIEnv.ReleaseStringUTFChars,
      JNIEnv.NewStringUTF]

theorem baseString_congr (env env1 : JNIEnv) (input : jstring) (h : env1.chars = env.chars) :
    baseString env1 input = baseString env input := by
  simp [baseString, inputData, h]

theorem FrameOK.mono (env env1 : JNIEnv) (f : Frame) (hchars : env1.chars = env.chars)
    (extra : List (List Nat)) (hobjects : env1.objects = env.objects ++ extra)
    (h : FrameOK env f) : FrameOK env1 f := by
  rcases f with ⟨input, pc, in_chars, s, ret⟩
  cases pc <;>
    simp only [FrameOK, baseString_congr env env1 _ hchars, hchars] at h ⊢ <;> try exact h
  rcases h with ⟨k, hk, hget⟩
  refine ⟨k, hk, ?_⟩
  have hlt : k < env.objects.length := (List.getElem?_eq_some_iff.mp hget).1
  rw [hobjects, List.getElem?_append_left hlt]
  exact hget

theorem FrameOK.ret_lt (env : JNIEnv) (f : Frame) (h : FrameOK env f)
    (hpc : f.pc = Pc.returned) : ∃ k, f.ret = some k ∧ k < env.objects.length := by
  rcases f with ⟨input, pc, in_chars, s, ret⟩
  simp only at hpc
  subst hpc
  rcases h with ⟨k, hk, hget⟩
  exact ⟨k, hk, (List.getElem?_eq_some_iff.mp hget).1⟩

theorem Frame.step_ok (env : JNIEnv) (f : Frame) (h : FrameOK env f) :
    FrameOK (f.step env).1 (f.step env).2 := by
  rcases f with ⟨input, pc, in_chars, s, ret⟩
  cases pc
  · simp [Frame.step, FrameOK, JNIEnv.GetStringUTFChars]
  · simp only [FrameOK] at h
    cases hc : env.chars input <;>
      simp [Frame.step, FrameOK, h, hc, baseString, inputData, std_string]
  · simp only [FrameOK] at h
    cases in_chars <;>
      simp [Frame.step, FrameOK, h.2, baseString, inputData, JNIEnv.ReleaseStringUTFChars]
  · simp only [FrameOK] at h
    simp [Frame.step, FrameOK, h, baseString, inputData]
  · simp only [FrameOK] at h
    have hno : ∀ b ∈ s, b ≠ 0 := by
      rw [h]
      intro b hb
      rcases List.mem_append.mp hb with hb | hb
      · unfold baseString inputData at hb
        cases hc : env.chars input with
        | none => simp [hc] at hb
        | some p =>
          simp only [hc, Option.map_some', Option.getD_some] at hb
          exact cstr_no_nul p.mem b hb
      · exact literal_World_no_nul b hb
    have hcs := cstr_c_str s hno
    simp only [Frame.step, FrameOK, JNIEnv.NewStringUTF, baseString, inputData]
    refine ⟨env.objects.length, rfl, ?_⟩
    rw [hcs, h]
    simp [baseString, inputData]
  · simpa [Frame.step] using h

theorem Frame.step_returned (env : JNIEnv) (f : Frame)
    (h : (f.step env).2.pc = Pc.returned) :
    (f.pc = Pc.returned ∧ (f.step env).2 = f)
    ∨ (f.step env).2.ret = some env.objects.length := by
  rcases f with ⟨input, pc, in_chars, s, ret⟩
  cases pc <;> simp [Frame.step, JNIEnv.GetStringUTFChars, JNIEnv.NewStringUTF] at h ⊢

theorem stepThread_chars (env : JNIEnv) (threads : List Frame) (i : Nat) :
    (stepThread env threads i).1.chars = env.chars := by
  unfold stepThread
  cases threads[i]? with
  | none => rfl
  | some f => exact Frame.step_chars env f

theorem stepThread_frame (env : JNIEnv) (threads : List Frame) (i j : Nat) (f : Frame)
    (h : threads[j]? = some f) :
    ∃ g, (stepThread env threads i).2[j]? = some g ∧ g.input = f.input
      ∧ g.pc.rank = min 5 (f.pc.rank + if i = j then 1 else 0) := by
  unfold stepThread
  by_cases hij : i = j
  · subst hij
    have hlt : i < threads.length := (List.getElem?_eq_some_iff.mp h).1
    simp only [h, List.getElem?_set_self hlt, if_true]
    exact ⟨_, rfl, Frame.step_input env f, Frame.step_rank env f⟩
  · have hrank : f.pc.rank ≤ 5 := by cases f.pc <;> simp [Pc.rank]
    cases hi : threads[i]? with
    | none => exact ⟨f, h, rfl, by simp [hij, hrank]⟩
    | some fi =>
      simp only [List.getElem?_set_ne hij]
      exact ⟨f, h, rfl, by simp [hij, hrank]⟩

theorem stepThread_ok (env : JNIEnv) (threads : List Frame) (i : Nat)
    (h : ThreadsOK env threads) :
    ThreadsOK (stepThread env threads i).1 (stepThread env threads i).2 := by
  unfold stepThread
  cases hi : threads[i]? with
  | none => exact h
  | some f =>
    have hlt : i < threads.length := (List.getElem?_eq_some_iff.mp hi).1
    rcases Frame.step_objects env f with ⟨extra, hextra⟩
    have hchars := Frame.step_chars env f
    have hf : FrameOK env f := h.1 i f hi
    -- a frame of the stepped system is the stepped frame or an untouched one
    have hsplit : ∀ (a : Nat) (fa : Frame), (threads.set i (f.step env).2)[a]? = some fa →
        (a = i ∧ fa = (f.step env).2) ∨ (a ≠ i ∧ threads[a]? = some fa) := by
      intro a fa ha
      by_cases hai : a = i
      · subst hai
        rw [List.getElem?_set_self hlt] at ha
        exact Or.inl ⟨rfl, (Option.some.inj ha).symm⟩
      · rw [List.getElem?_set_ne (fun e => hai e.symm)] at ha
        exact Or.inr ⟨hai, ha⟩
    -- the stepped frame, once returned, differs from every other returned frame
    have hnew : ∀ (b : Nat) (fb : Frame), b ≠ i → threads[b]? = some fb →
        (f.step env).2.pc = Pc.returned → fb.pc = Pc.returned →
        (f.step env).2.ret ≠ fb.ret := by
      intro b fb hbi hb hpc hpcb
      rcases Frame.step_returned env f hpc with ⟨hfpc, hsame⟩ | hret
      · rw [hsame]
        exact h.2 i b f fb (fun e => hbi e.symm) hi hb hfpc hpcb
      · rcases FrameOK.ret_lt env fb (h.1 b fb hb) hpcb with ⟨k, hk, hklt⟩
        rw [hret, hk]
        intro e
        have := Option.some.inj e
        omega
    constructor
    · intro a fa ha
      rcases hsplit a fa ha with ⟨_, rfl⟩ | ⟨_, hold⟩
      · exact Frame.step_ok env f hf
      · exact FrameOK.mono env _ fa hchars extra hextra (h.1 a fa hold)
    · intro a b fa fb hab ha hb hpa hpb
      rcases hsplit a fa ha with ⟨rfl, rfl⟩ | ⟨hai, holda⟩
      · rcases hsplit b fb hb with ⟨rfl, _⟩ | ⟨hbi, holdb⟩
        · exact absurd rfl hab
        · exact hnew b fb hbi holdb hpa hpb
      · rcases hsplit b fb hb with ⟨rfl, rfl⟩ | ⟨hbi, holdb⟩
        · exact fun e => hnew a fa hai holda hpb hpa e.symm
        · exact h.2 a b fa fb hab holda holdb hpa hpb

theorem runSchedule_chars (sched : List Nat) (env : JNIEnv) (threads : List Frame) :
    (runSchedule env threads sched).1.chars = env.chars := by
  induction sched generalizing env threads with
  | nil => rfl
  | cons i rest ih =>
    simp only [runSchedule]
    rw [ih, stepThread_chars]

theorem runSchedule_ok (sched : List Nat) (env : JNIEnv) (threads : List Frame)
    (h : ThreadsOK env threads) :
    ThreadsOK (runSchedule env threads sched).1 (runSchedule env threads sched).2 := by
  induction sched generalizing env threads with
  | nil => exact h
  | cons i rest ih =>
    simp only [runSchedule]
    exact ih _ _ (stepThread_ok env threads i h)

theorem runSchedule_frame (sched : List Nat) (env : JNIEnv) (threads : List Frame)
    (j : Nat) (f : Frame) (h : threads[j]? = some f) :
    ∃ g, (runSchedule env threads sched).2[j]? = some g ∧ g.input = f.input
      ∧ g.pc.rank = min 5 (f.pc.rank + sched.count j) := by
  induction sched generalizing env threads f with
  | nil =>
    have hrank : f.pc.rank ≤ 5 := by cases f.pc <;> simp [Pc.rank]
    exact ⟨f, h, rfl, by simp [hrank]⟩
  | cons i rest ih =>
    rcases stepThread_frame env threads i j f h with ⟨g, hg, hin, hrk⟩
    rcases ih (stepThread env threads i).1 (stepThread env threads i).2 g hg with
      ⟨g2, hg2, hin2, hrk2⟩
    refine ⟨g2, by simpa only [runSchedule] using hg2, hin2.trans hin, ?_⟩
    rw [hrk2, hrk, List.count_cons]
    by_cases hij : i = j
    · rw [if_pos hij, if_pos (by simpa using hij)]
      omega
    · rw [if_neg hij, if_neg (by simpa using hij)]
      omega

theorem ThreadsOK.enter (env : JNIEnv) (inputs : List jstring) :
    ThreadsOK env (inputs.map Frame.enter) := by
  constructor
  · intro i f hf
    rw [List.getElem?_map] at hf
    cases hi : inputs[i]? with
    | none => simp [hi] at hf
    | some x =>
      simp only [hi, Option.map_some', Option.some.injEq] at hf
      subst hf
      simp [FrameOK, Frame.enter]
  · intro i j fi fj _ hi _ hpc
    rw [List.getElem?_map] at hi
    cases hx : inputs[i]? with
    | none => simp [hx] at hi
    | some x =>
      simp only [hx, Option.map_some', Option.some.injEq] at hi
      subst hi
      simp [Frame.enter] at hpc

theorem Pc.rank_eq_five (pc : Pc) (h : pc.rank = 5) : pc = Pc.returned := by
  cases pc <;> simp [Pc.rank] at h ⊢

/-- The statement-by-statement run of a single thread is the function `concatWorld`. -/
theorem runSchedule_alone (env : JNIEnv) (input : jstring) :
    ∃ f, runSchedule env [Frame.enter input] [0, 0, 0, 0, 0]
        = ((Java_com_mapconductor_plugin_provider_geolocation_NativeBridge_concatWorld
              env input).2, [f])
      ∧ f.pc = Pc.returned
      ∧ f.ret = (Java_com_mapconductor_plugin_provider_geolocation_NativeBridge_concatWorld
              env input).1 := by
  unfold Java_com_mapconductor_plugin_provider_geolocation_NativeBridge_concatWorld
  cases h : env.chars input <;>
    simp [runSchedule, stepThread, Frame.step, Frame.enter, JNIEnv.GetStringUTFChars,
      JNIEnv.ReleaseStringUTFChars, JNIEnv.NewStringUTF, h]

/-! ## What one call of `JNI_OnLoad` does -/

theorem JNI_OnLoad_ok (vm : JavaVM) (host : List HostEffect)
    (h : vm.GetEnv JNI_VERSION_1_6 = JNI_OK) :
    JNI_OnLoad vm host =
      (JNI_VERSION_1_6,
       host ++ [HostEffect.android_log_print ANDROID_LOG_INFO LOG_TAG "driveuploader JNI_OnLoad",
                HostEffect.GetEnv JNI_VERSION_1_6]) := by
  simp [JNI_OnLoad, h]

theorem JNI_OnLoad_err (vm : JavaVM) (host : List HostEffect)
    (h : vm.GetEnv JNI_VERSION_1_6 ≠ JNI_OK) :
    JNI_OnLoad vm host =
      (JNI_ERR,
       host ++ [HostEffect.android_log_print ANDROID_LOG_INFO LOG_TAG "driveuploader JNI_OnLoad",
                HostEffect.GetEnv JNI_VERSION_1_6,
                HostEffect.android_log_print ANDROID_LOG_ERROR LOG_TAG "GetEnv failed"]) := by
  simp [JNI_OnLoad, h]

/-! ## The string bridge function -/

/-- C1: when the borrow of the input yields a pointer to the NUL-terminated characters `s`,
`concatWorld` returns a string that did not exist before the call and whose content is `s`
followed by the eight characters of `" World!!"`; so `"Hello"` gives `"Hello World!!"` and
the empty string gives `" World!!"`. -/
theorem concatWorld_appends_World (env : JNIEnv) (input : jstring) (p : CharPtr)
    (s rest : List Nat)
    (hborrow : env.chars input = some p) (hmem : p.mem = s ++ 0 :: rest)
    (hs : ∀ b ∈ s, b ≠ 0) :
    (Java_com_mapconductor_plugin_provider_geolocation_NativeBridge_concatWorld env input).2.content
        (Java_com_mapconductor_plugin_provider_geolocation_NativeBridge_concatWorld env input).1
      = some (s ++ literal " World!!")
    ∧ (literal " World!!").length = 8
    ∧ env.content
        (Java_com_mapconductor_plugin_provider_geolocation_NativeBridge_concatWorld env input).1
      = none
    ∧ (s = literal "Hello" →
        (Java_com_mapconductor_plugin_provider_geolocation_NativeBridge_concatWorld env input).2.content
          (Java_com_mapconductor_plugin_provider_geolocation_NativeBridge_concatWorld env input).1
        = some (literal "Hello World!!"))
    ∧ (s = literal "" →
        (Java_com_mapconductor_plugin_provider_geolocation_NativeBridge_concatWorld env input).2.content
          (Java_com_mapconductor_plugin_provider_geolocation_NativeBridge_concatWorld env input).1
        = some (literal " World!!")) := by
  have hbase : baseString env input = s := by
    simp [baseString, inputData, hborrow, hmem, cstr_append_nul s rest hs]
  have hc := concatWorld_content env input
  rw [hbase] at hc
  refine ⟨hc, by decide, concatWorld_fresh env input, ?_, ?_⟩
  · intro h
    rw [hc, h]
    decide
  · intro h
    rw [hc, h]
    decide

theorem concatWorld_appends_World_witness :
    (Java_com_mapconductor_plugin_provider_geolocation_NativeBridge_concatWorld
        ⟨fun _ => some ⟨16, literal "Hello" ++ 0 :: [7]⟩, [], []⟩ (some 3)).2.content
      (Java_com_mapconductor_plugin_provider_geolocation_NativeBridge_concatWorld
        ⟨fun _ => some ⟨16, literal "Hello" ++ 0 :: [7]⟩, [], []⟩ (some 3)).1
      = some (literal "Hello World!!") :=
  (concatWorld_appends_World ⟨fun _ => some ⟨16, literal "Hello" ++ 0 :: [7]⟩, [], []⟩ (some 3)
    ⟨16, literal "Hello" ++ 0 :: [7]⟩ (literal "Hello") [7] rfl rfl (by decide)).2.2.2.1 rfl

/-- C2: when the borrow of the input yields nothing, `concatWorld` still returns a string
(a non-null reference, no error), its content is `" World!!"` alone, and that is the content
returned for any input whose borrowed characters are the empty string. -/
theorem concatWorld_null_input (env : JNIEnv) (input : jstring)
    (hnull : env.chars input = none) :
    (Java_com_mapconductor_plugin_provider_geolocation_NativeBridge_concatWorld env input).1 ≠ none
    ∧ (Java_com_mapconductor_plugin_provider_geolocation_NativeBridge_concatWorld env input).2.content
        (Java_com_mapconductor_plugin_provider_geolocation_NativeBridge_concatWorld env input).1
      = some (literal " World!!")
    ∧ ∀ (env0 : JNIEnv) (input0 : jstring) (p : CharPtr),
        env0.chars input0 = some p → cstr p.mem = [] →
        (Java_com_mapconductor_plugin_provider_geolocation_NativeBridge_concatWorld env0 input0).2.content
          (Java_com_mapconductor_plugin_provider_geolocation_NativeBridge_concatWorld env0 input0).1
        = (Java_com_mapconductor_plugin_provider_geolocation_NativeBridge_concatWorld env input).2.content
          (Java_com_mapconductor_plugin_provider_geolocation_NativeBridge_concatWorld env input).1 := by
  have hbase : baseString env input = [] := by
    simp [baseString, inputData, hnull]
  refine ⟨by simp [concatWorld_result], ?_, ?_⟩
  · simp [concatWorld_content, hbase]
  · intro env0 input0 p h0 hp
    have hbase0 : baseString env0 input0 = [] := by
      simp [baseString, inputData, h0, hp]
    simp [concatWorld_content, hbase, hbase0]

theorem concatWorld_null_input_witness :
    (Java_com_mapconductor_plugin_provider_geolocation_NativeBridge_concatWorld
        ⟨fun _ => none, [], []⟩ none).2.content
      (Java_com_mapconductor_plugin_provider_geolocation_NativeBridge_concatWorld
        ⟨fun _ => none, [], []⟩ none).1
      = some (literal " World!!") :=
  (concatWorld_null_input ⟨fun _ => none, [], []⟩ none rfl).2.1

/-- C6 as stated fails: when the borrow yields nothing, the trace of the call holds the borrow
and the allocation and no `ReleaseStringUTFChars` at all. -/
theorem concatWorld_null_path_has_no_release :
    (⟨fun _ => none, [], []⟩ : JNIEnv).chars none = none
    ∧ (Java_com_mapconductor_plugin_provider_geolocation_NativeBridge_concatWorld
        ⟨fun _ => none, [], []⟩ none).2.calls
      = [JniCall.GetStringUTFChars none,
         JniCall.NewStringUTF [32, 87, 111, 114, 108, 100, 33, 33, 0]]
    ∧ releases (Java_com_mapconductor_plugin_provider_geolocation_NativeBridge_concatWorld
        ⟨fun _ => none, [], []⟩ none).2.calls = [] := by
  decide

/-- C6 amended: the release is guarded by the borrow. When the borrow yields a pointer `p`, the
call's trace is the borrow, then `ReleaseStringUTFChars` on the same input and `p`, then the
allocation whose result is returned, so the release lies after the borrow and before the
return; when the borrow yields nothing, the call makes no release. -/
theorem concatWorld_release_guarded (env : JNIEnv) (input : jstring) :
    (∀ p : CharPtr, env.chars input = some p →
       (Java_com_mapconductor_plugin_provider_geolocation_NativeBridge_concatWorld env input).2.calls
         = env.calls ++ [JniCall.GetStringUTFChars input,
             JniCall.ReleaseStringUTFChars input p,
             JniCall.NewStringUTF (c_str (cstr p.mem ++ literal " World!!"))])
    ∧ (env.chars input = none →
       (Java_com_mapconductor_plugin_provider_geolocation_NativeBridge_concatWorld env input).2.calls
         = env.calls ++ [JniCall.GetStringUTFChars input,
             JniCall.NewStringUTF (c_str (literal " World!!"))]
       ∧ releases (Java_com_mapconductor_plugin_provider_geolocation_NativeBridge_concatWorld
           env input).2.calls = releases env.calls) := by
  constructor
  · intro p hp
    simp [concatWorld_calls, hp, baseString, inputData]
  · intro hnone
    simp [concatWorld_calls, hnone, baseString, inputData, releases]

/-- C7: the content `concatWorld` returns is determined by the character data the borrow of
the input yields. Two calls made in arbitrary host states whose borrows yield the same data
return equal content, and calling again right after a call returns the same content while
the first result keeps its own. -/
theorem concatWorld_deterministic (env1 env2 : JNIEnv) (input1 input2 : jstring)
    (hsame : inputData env1 input1 = inputData env2 input2) :
    (Java_com_mapconductor_plugin_provider_geolocation_NativeBridge_concatWorld env1 input1).2.content
        (Java_com_mapconductor_plugin_provider_geolocation_NativeBridge_concatWorld env1 input1).1
      = (Java_com_mapconductor_plugin_provider_geolocation_NativeBridge_concatWorld env2 input2).2.content
        (Java_com_mapconductor_plugin_provider_geolocation_NativeBridge_concatWorld env2 input2).1
    ∧ (Java_com_mapconductor_plugin_provider_geolocation_NativeBridge_concatWorld
          (Java_com_mapconductor_plugin_provider_geolocation_NativeBridge_concatWorld env1 input1).2
          input1).2.content
        (Java_com_mapconductor_plugin_provider_geolocation_NativeBridge_concatWorld
          (Java_com_mapconductor_plugin_provider_geolocation_NativeBridge_concatWorld env1 input1).2
          input1).1
      = (Java_com_mapconductor_plugin_provider_geolocation_NativeBridge_concatWorld env1 input1).2.content
        (Java_com_mapconductor_plugin_provider_geolocation_NativeBridge_concatWorld env1 input1).1
    ∧ (Java_com_mapconductor_plugin_provider_geolocation_NativeBridge_concatWorld
          (Java_com_mapconductor_plugin_provider_geolocation_NativeBridge_concatWorld env1 input1).2
          input1).2.content
        (Java_com_mapconductor_plugin_provider_geolocation_NativeBridge_concatWorld env1 input1).1
      = (Java_com_mapconductor_plugin_provider_geolocation_NativeBridge_concatWorld env1 input1).2.content
        (Java_com_mapconductor_plugin_provider_geolocation_NativeBridge_concatWorld env1 input1).1 := by
  have hagain : baseString
      (Java_com_mapconductor_plugin_provider_geolocation_NativeBridge_concatWorld env1 input1).2
      input1 = baseString env1 input1 := by
    simp [baseString, inputData, concatWorld_chars]
  refine ⟨?_, ?_, ?_⟩
  · simp [concatWorld_content, baseString, hsame]
  · simp [concatWorld_content, hagain]
  · rw [concatWorld_content env1 input1]
    exact concatWorld_keeps _ input1 _ _ (concatWorld_content env1 input1)

theorem concatWorld_deterministic_witness :
    (Java_com_mapconductor_plugin_provider_geolocation_NativeBridge_concatWorld
        ⟨fun _ => some ⟨16, [72, 105, 0]⟩, [], []⟩ (some 3)).2.content
      (Java_com_mapconductor_plugin_provider_geolocation_NativeBridge_concatWorld
        ⟨fun _ => some ⟨16, [72, 105, 0]⟩, [], []⟩ (some 3)).1
    = (Java_com_mapconductor_plugin_provider_geolocation_NativeBridge_concatWorld
        ⟨fun _ => some ⟨48, [72, 105, 0, 9]⟩, [[1], [2]], [JniCall.GetStringUTFChars none]⟩
        (some 5)).2.content
      (Java_com_mapconductor_plugin_provider_geolocation_NativeBridge_concatWorld
        ⟨fun _ => some ⟨48, [72, 105, 0, 9]⟩, [[1], [2]], [JniCall.GetStringUTFChars none]⟩
        (some 5)).1 :=
  (concatWorld_deterministic ⟨fun _ => some ⟨16, [72, 105, 0]⟩, [], []⟩
    ⟨fun _ => some ⟨48, [72, 105, 0, 9]⟩, [[1], [2]], [JniCall.GetStringUTFChars none]⟩
    (some 3) (some 5) (by decide)).1

/-- C9: the JNI calls of one `concatWorld` call are the borrow `GetStringUTFChars` on the
input, then at most one `ReleaseStringUTFChars` (on that input and the borrowed pointer, and
present whenever a pointer was borrowed), then one `NewStringUTF` as the last call; what the
host yields for any string and the content of every existing string are left as they were. -/
theorem concatWorld_effects (env : JNIEnv) (input : jstring) :
    (∃ released : List JniCall,
       (Java_com_mapconductor_plugin_provider_geolocation_NativeBridge_concatWorld env input).2.calls
         = env.calls ++ [JniCall.GetStringUTFChars input] ++ released
             ++ [JniCall.NewStringUTF (c_str (baseString env input ++ literal " World!!"))]
       ∧ (released = [] ∨ ∃ p, env.chars input = some p
             ∧ released = [JniCall.ReleaseStringUTFChars input p])
       ∧ (∀ p, env.chars input = some p → released = [JniCall.ReleaseStringUTFChars input p]))
    ∧ (Java_com_mapconductor_plugin_provider_geolocation_NativeBridge_concatWorld env input).2.chars
        = env.chars
    ∧ (Java_com_mapconductor_plugin_provider_geolocation_NativeBridge_concatWorld env input).2.objects
        = env.objects ++ [baseString env input ++ literal " World!!"]
    ∧ (∀ (str : jstring) (c : List Nat), env.content str = some c →
        (Java_com_mapconductor_plugin_provider_geolocation_NativeBridge_concatWorld env input).2.content
          str = some c) := by
  refine ⟨?_, concatWorld_chars env input, concatWorld_objects env input,
    fun str c h => concatWorld_keeps env input str c h⟩
  cases h : env.chars input with
  | none =>
    exact ⟨[], by simp [concatWorld_calls, h], Or.inl rfl, by simp⟩
  | some p =>
    exact ⟨[JniCall.ReleaseStringUTFChars input p], by simp [concatWorld_calls, h],
      Or.inr ⟨p, rfl, rfl⟩, by simp⟩

/-- C10: on inputs whose borrow succeeds, equal output content forces equal input characters;
for every input the output is eight characters longer than the base string, is not empty and
ends with `" World!!"`; and feeding the output back (the host yielding the output's own
characters for it) returns a different string with different content. -/
theorem concatWorld_injective_and_growing (env1 env2 : JNIEnv) (a b : jstring) :
    (∀ pa pb : CharPtr, env1.chars a = some pa → env2.chars b = some pb →
        (Java_com_mapconductor_plugin_provider_geolocation_NativeBridge_concatWorld env1 a).2.content
          (Java_com_mapconductor_plugin_provider_geolocation_NativeBridge_concatWorld env1 a).1
        = (Java_com_mapconductor_plugin_provider_geolocation_NativeBridge_concatWorld env2 b).2.content
          (Java_com_mapconductor_plugin_provider_geolocation_NativeBridge_concatWorld env2 b).1 →
        cstr pa.mem = cstr pb.mem)
    ∧ (∃ out : List Nat,
        (Java_com_mapconductor_plugin_provider_geolocation_NativeBridge_concatWorld env1 a).2.content
          (Java_com_mapconductor_plugin_provider_geolocation_NativeBridge_concatWorld env1 a).1
          = some out
        ∧ out.length = (baseString env1 a).length + 8
        ∧ out ≠ []
        ∧ literal " World!!" <:+ out)
    ∧ (∀ p : CharPtr,
        (Java_com_mapconductor_plugin_provider_geolocation_NativeBridge_concatWorld env1 a).2.chars
          (Java_com_mapconductor_plugin_provider_geolocation_NativeBridge_concatWorld env1 a).1
          = some p →
        some (cstr p.mem)
          = (Java_com_mapconductor_plugin_provider_geolocation_NativeBridge_concatWorld env1 a).2.content
              (Java_com_mapconductor_plugin_provider_geolocation_NativeBridge_concatWorld env1 a).1 →
        (Java_com_mapconductor_plugin_provider_geolocation_NativeBridge_concatWorld
            (Java_com_mapconductor_plugin_provider_geolocation_NativeBridge_concatWorld env1 a).2
            (Java_com_mapconductor_plugin_provider_geolocation_NativeBridge_concatWorld env1 a).1).2.content
          (Java_com_mapconductor_plugin_provider_geolocation_NativeBridge_concatWorld
            (Java_com_mapconductor_plugin_provider_geolocation_NativeBridge_concatWorld env1 a).2
            (Java_com_mapconductor_plugin_provider_geolocation_NativeBridge_concatWorld env1 a).1).1
        ≠ (Java_com_mapconductor_plugin_provider_geolocation_NativeBridge_concatWorld env1 a).2.content
            (Java_com_mapconductor_plugin_provider_geolocation_NativeBridge_concatWorld env1 a).1
        ∧ (Java_com_mapconductor_plugin_provider_geolocation_NativeBridge_concatWorld
            (Java_com_mapconductor_plugin_provider_geolocation_NativeBridge_concatWorld env1 a).2
            (Java_com_mapconductor_plugin_provider_geolocation_NativeBridge_concatWorld env1 a).1).1
          ≠ (Java_com_mapconductor_plugin_provider_geolocation_NativeBridge_concatWorld env1 a).1) := by
  refine ⟨?_, ?_, ?_⟩
  · intro pa pb ha hb heq
    simpa [concatWorld_content, baseString, inputData, ha, hb] using heq
  · refine ⟨_, concatWorld_content env1 a, ?_, ?_, ?_⟩
    · simp [literal_World]
    · simp [literal_World]
    · exact List.suffix_append _ _
  · intro p hp hcontent
    constructor
    · rw [concatWorld_content env1 a] at hcontent
      rw [concatWorld_content, concatWorld_content env1 a]
      have hbase : baseString
          (Java_com_mapconductor_plugin_provider_geolocation_NativeBridge_concatWorld env1 a).2
          (Java_com_mapconductor_plugin_provider_geolocation_NativeBridge_concatWorld env1 a).1
          = baseString env1 a ++ literal " World!!" := by
        simp only [baseString, inputData, hp, Option.map_some', Option.getD_some]
        exact Option.some.inj hcontent
      rw [hbase]
      intro h
      have := congrArg List.length (Option.some.inj h)
      simp [literal_World] at this
    · rw [concatWorld_result, concatWorld_result, concatWorld_objects]
      simp

theorem concatWorld_injective_and_growing_witness :
    (Java_com_mapconductor_plugin_provider_geolocation_NativeBridge_concatWorld
        (Java_com_mapconductor_plugin_provider_geolocation_NativeBridge_concatWorld
          ⟨fun r => if r = some 0 then some ⟨64, literal " World!!" ++ [0]⟩ else none, [], []⟩
          none).2
        (Java_com_mapconductor_plugin_provider_geolocation_NativeBridge_concatWorld
          ⟨fun r => if r = some 0 then some ⟨64, literal " World!!" ++ [0]⟩ else none, [], []⟩
          none).1).2.content
      (Java_com_mapconductor_plugin_provider_geolocation_NativeBridge_concatWorld
        (Java_com_mapconductor_plugin_provider_geolocation_NativeBridge_concatWorld
          ⟨fun r => if r = some 0 then some ⟨64, literal " World!!" ++ [0]⟩ else none, [], []⟩
          none).2
        (Java_com_mapconductor_plugin_provider_geolocation_NativeBridge_concatWorld
          ⟨fun r => if r = some 0 then some ⟨64, literal " World!!" ++ [0]⟩ else none, [], []⟩
          none).1).1
    ≠ (Java_com_mapconductor_plugin_provider_geolocation_NativeBridge_concatWorld
        ⟨fun r => if r = some 0 then some ⟨64, literal " World!!" ++ [0]⟩ else none, [], []⟩
        none).2.content
      (Java_com_mapconductor_plugin_provider_geolocation_NativeBridge_concatWorld
        ⟨fun r => if r = some 0 then some ⟨64, literal " World!!" ++ [0]⟩ else none, [], []⟩
        none).1 :=
  ((concatWorld_injective_and_growing
    ⟨fun r => if r = some 0 then some ⟨64, literal " World!!" ++ [0]⟩ else none, [], []⟩
    ⟨fun r => if r = some 0 then some ⟨64, literal " World!!" ++ [0]⟩ else none, [], []⟩
    none none).2.2 ⟨64, literal " World!!" ++ [0]⟩ (by decide) (by decide)).1

/-! ## Concurrent calls of the bridge function -/

/-- C8: let any number of threads each call `concatWorld` on an input of its own, their
statements interleaved by an arbitrary schedule over the shared host. Every thread that has
returned holds a string whose content is its own input's characters followed by
`" World!!"`; a thread returns once it has been scheduled five times; and no two returned
threads hold the same string. -/
theorem concatWorld_concurrent (env : JNIEnv) (inputs : List jstring) (sched : List Nat) :
    (∀ (i : Nat) (input : jstring) (f : Frame), inputs[i]? = some input →
        (runSchedule env (inputs.map Frame.enter) sched).2[i]? = some f →
        f.pc = Pc.returned →
        (runSchedule env (inputs.map Frame.enter) sched).1.content f.ret
          = some (baseString env input ++ literal " World!!"))
    ∧ (∀ (i : Nat) (input : jstring), inputs[i]? = some input → 5 ≤ sched.count i →
        ∃ f, (runSchedule env (inputs.map Frame.enter) sched).2[i]? = some f
          ∧ f.pc = Pc.returned
          ∧ (runSchedule env (inputs.map Frame.enter) sched).1.content f.ret
              = some (baseString env input ++ literal " World!!"))
    ∧ (∀ (i j : Nat) (fi fj : Frame), i ≠ j →
        (runSchedule env (inputs.map Frame.enter) sched).2[i]? = some fi →
        (runSchedule env (inputs.map Frame.enter) sched).2[j]? = some fj →
        fi.pc = Pc.returned → fj.pc = Pc.returned → fi.ret ≠ fj.ret) := by
  have hok := runSchedule_ok sched env (inputs.map Frame.enter) (ThreadsOK.enter env inputs)
  have hchars := runSchedule_chars sched env (inputs.map Frame.enter)
  have hsafe : ∀ (i : Nat) (input : jstring) (f : Frame), inputs[i]? = some input →
      (runSchedule env (inputs.map Frame.enter) sched).2[i]? = some f →
      f.pc = Pc.returned →
      (runSchedule env (inputs.map Frame.enter) sched).1.content f.ret
        = some (baseString env input ++ literal " World!!") := by
    intro i input f hin hf hpc
    have hstart : (inputs.map Frame.enter)[i]? = some (Frame.enter input) := by
      rw [List.getElem?_map, hin]
      rfl
    rcases runSchedule_frame sched env _ i _ hstart with ⟨g, hg, hginput, _⟩
    have hgf : g = f := Option.some.inj (hg.symm.trans hf)
    subst hgf
    have hfok := hok.1 i g hf
    rcases g with ⟨ginput, pc, in_chars, s, ret⟩
    simp only at hpc
    subst hpc
    rcases hfok with ⟨k, hk, hget⟩
    simp only [Frame.enter] at hginput
    simp only at hk
    subst hk
    subst hginput
    simp only [JNIEnv.content]
    rw [hget, baseString_congr env _ _ hchars]
  refine ⟨hsafe, ?_, hok.2⟩
  intro i input hin hcount
  have hstart : (inputs.map Frame.enter)[i]? = some (Frame.enter input) := by
    rw [List.getElem?_map, hin]
    rfl
  rcases runSchedule_frame sched env _ i _ hstart with ⟨g, hg, _, hrank⟩
  have hpc : g.pc = Pc.returned := by
    apply Pc.rank_eq_five
    rw [hrank]
    simp only [Frame.enter, Pc.rank]
    omega
  exact ⟨g, hg, hpc, hsafe i input g hin hg hpc⟩

theorem concatWorld_concurrent_witness :
    ∃ f, (runSchedule
            ⟨fun r => if r = some 1 then some ⟨16, [65, 0]⟩ else
                      if r = some 2 then some ⟨32, [66, 0]⟩ else none, [], []⟩
            ([some 1, some 2, none].map Frame.enter)
            [0, 1, 2, 2, 0, 1, 1, 0, 2, 0, 1, 1, 0, 2]).2[0]? = some f
      ∧ f.pc = Pc.returned
      ∧ (runSchedule
            ⟨fun r => if r = some 1 then some ⟨16, [65, 0]⟩ else
                      if r = some 2 then some ⟨32, [66, 0]⟩ else none, [], []⟩
            ([some 1, some 2, none].map Frame.enter)
            [0, 1, 2, 2, 0, 1, 1, 0, 2, 0, 1, 1, 0, 2]).1.content f.ret
          = some (baseString
              ⟨fun r => if r = some 1 then some ⟨16, [65, 0]⟩ else
                        if r = some 2 then some ⟨32, [66, 0]⟩ else none, [], []⟩
              (some 1) ++ literal " World!!") :=
  (concatWorld_concurrent
    ⟨fun r => if r = some 1 then some ⟨16, [65, 0]⟩ else
              if r = some 2 then some ⟨32, [66, 0]⟩ else none, [], []⟩
    [some 1, some 2, none] [0, 1, 2, 2, 0, 1, 1, 0, 2, 0, 1, 1, 0, 2]).2.1 0 (some 1) rfl
    (by decide)

/-! ## The load hook -/

/-- C3: `JNI_OnLoad` returns `JNI_VERSION_1_6` (`0x00010006`) exactly when `GetEnv`, asked for
version 1.6, reports `JNI_OK`, and `JNI_ERR` (`-1`) for every other status; it returns nothing
else, and the only version it asks `GetEnv` for is the one it returns on success. -/
theorem JNI_OnLoad_return_value (vm : JavaVM) (host : List HostEffect) :
    ((JNI_OnLoad vm host).1 = JNI_VERSION_1_6 ↔ vm.GetEnv JNI_VERSION_1_6 = JNI_OK)
    ∧ ((JNI_OnLoad vm host).1 = JNI_ERR ↔ vm.GetEnv JNI_VERSION_1_6 ≠ JNI_OK)
    ∧ ((JNI_OnLoad vm host).1 = JNI_VERSION_1_6 ∨ (JNI_OnLoad vm host).1 = JNI_ERR)
    ∧ JNI_VERSION_1_6 = 0x00010006 ∧ JNI_ERR = -1
    ∧ (∃ rest, (JNI_OnLoad vm host).2
        = host ++ [HostEffect.android_log_print ANDROID_LOG_INFO LOG_TAG "driveuploader JNI_OnLoad",
                   HostEffect.GetEnv JNI_VERSION_1_6] ++ rest
        ∧ ∀ v, HostEffect.GetEnv v ∉ rest) := by
  have hne : JNI_VERSION_1_6 ≠ JNI_ERR := by decide
  by_cases h : vm.GetEnv JNI_VERSION_1_6 = JNI_OK
  · rw [JNI_OnLoad_ok vm host h]
    refine ⟨by simp [h], by simp [h, hne], Or.inl rfl, rfl, rfl, [], ?_⟩
    simp
  · rw [JNI_OnLoad_err vm host h]
    refine ⟨by simp [h, hne.symm], by simp [h], Or.inr rfl, rfl, rfl,
      [HostEffect.android_log_print ANDROID_LOG_ERROR LOG_TAG "GetEnv failed"], ?_⟩
    simp

/-- C4 as stated fails: with a `GetEnv` that reports `JNI_ERR`, the call writes two log lines,
the informational line of the entry and then the error line, so its trace is not the error
line alone. -/
theorem JNI_OnLoad_failure_also_logs_info :
    (⟨fun _ => JNI_ERR⟩ : JavaVM).GetEnv JNI_VERSION_1_6 ≠ JNI_OK
    ∧ (JNI_OnLoad ⟨fun _ => JNI_ERR⟩ []).2
      = [HostEffect.android_log_print ANDROID_LOG_INFO LOG_TAG "driveuploader JNI_OnLoad",
         HostEffect.GetEnv JNI_VERSION_1_6,
         HostEffect.android_log_print ANDROID_LOG_ERROR LOG_TAG "GetEnv failed"]
    ∧ logLines (JNI_OnLoad ⟨fun _ => JNI_ERR⟩ []).2
      = [HostEffect.android_log_print ANDROID_LOG_INFO LOG_TAG "driveuploader JNI_OnLoad",
         HostEffect.android_log_print ANDROID_LOG_ERROR LOG_TAG "GetEnv failed"]
    ∧ logLines (JNI_OnLoad ⟨fun _ => JNI_ERR⟩ []).2
      ≠ [HostEffect.android_log_print ANDROID_LOG_ERROR LOG_TAG "GetEnv failed"] := by
  have hne : (⟨fun _ => JNI_ERR⟩ : JavaVM).GetEnv JNI_VERSION_1_6 ≠ JNI_OK := by
    simp [JNI_ERR, JNI_OK]
  rw [JNI_OnLoad_err _ _ hne]
  refine ⟨hne, by simp, ?_, ?_⟩ <;> simp [logLines]

/-- C4 amended: when `GetEnv` does not report `JNI_OK`, `JNI_OnLoad` returns `JNI_ERR` and its
trace is the informational line written on entry, the `GetEnv` request, and one error line;
exactly one error-severity line is added, as the last effect, and nothing is registered. -/
theorem JNI_OnLoad_failure_trace (vm : JavaVM) (host : List HostEffect)
    (hfail : vm.GetEnv JNI_VERSION_1_6 ≠ JNI_OK) :
    (JNI_OnLoad vm host).1 = JNI_ERR
    ∧ (JNI_OnLoad vm host).2
      = host ++ [HostEffect.android_log_print ANDROID_LOG_INFO LOG_TAG "driveuploader JNI_OnLoad",
                 HostEffect.GetEnv JNI_VERSION_1_6,
                 HostEffect.android_log_print ANDROID_LOG_ERROR LOG_TAG "GetEnv failed"]
    ∧ logLinesAt ANDROID_LOG_ERROR (JNI_OnLoad vm host).2
      = logLinesAt ANDROID_LOG_ERROR host
          ++ [HostEffect.android_log_print ANDROID_LOG_ERROR LOG_TAG "GetEnv failed"]
    ∧ logLines (JNI_OnLoad vm host).2
      = logLines host
          ++ [HostEffect.android_log_print ANDROID_LOG_INFO LOG_TAG "driveuploader JNI_OnLoad",
              HostEffect.android_log_print ANDROID_LOG_ERROR LOG_TAG "GetEnv failed"]
    ∧ registrations (JNI_OnLoad vm host).2 = registrations host := by
  rw [JNI_OnLoad_err vm host hfail]
  refine ⟨rfl, rfl, ?_, ?_, ?_⟩
  · simp [logLinesAt, ANDROID_LOG_INFO, ANDROID_LOG_ERROR]
  · simp [logLines]
  · simp [registrations]

theorem JNI_OnLoad_failure_trace_witness :
    (JNI_OnLoad ⟨fun _ => -2⟩ []).1 = JNI_ERR
    ∧ (JNI_OnLoad ⟨fun _ => -2⟩ []).2
      = [] ++ [HostEffect.android_log_print ANDROID_LOG_INFO LOG_TAG "driveuploader JNI_OnLoad",
               HostEffect.GetEnv JNI_VERSION_1_6,
               HostEffect.android_log_print ANDROID_LOG_ERROR LOG_TAG "GetEnv failed"] :=
  ⟨(JNI_OnLoad_failure_trace ⟨fun _ => -2⟩ [] (by decide)).1,
   (JNI_OnLoad_failure_trace ⟨fun _ => -2⟩ [] (by decide)).2.1⟩

/-- C5: when `GetEnv`, asked for version 1.6, reports `JNI_OK`, `JNI_OnLoad` returns
`JNI_VERSION_1_6` after writing exactly one informational log line and asking `GetEnv` once;
it writes no error line and registers nothing. -/
theorem JNI_OnLoad_success_trace (vm : JavaVM) (host : List HostEffect)
    (hok : vm.GetEnv JNI_VERSION_1_6 = JNI_OK) :
    (JNI_OnLoad vm host).1 = JNI_VERSION_1_6
    ∧ (JNI_OnLoad vm host).2
      = host ++ [HostEffect.android_log_print ANDROID_LOG_INFO LOG_TAG "driveuploader JNI_OnLoad",
                 HostEffect.GetEnv JNI_VERSION_1_6]
    ∧ logLines (JNI_OnLoad vm host).2
      = logLines host
          ++ [HostEffect.android_log_print ANDROID_LOG_INFO LOG_TAG "driveuploader JNI_OnLoad"]
    ∧ logLinesAt ANDROID_LOG_INFO (JNI_OnLoad vm host).2
      = logLinesAt ANDROID_LOG_INFO host
          ++ [HostEffect.android_log_print ANDROID_LOG_INFO LOG_TAG "driveuploader JNI_OnLoad"]
    ∧ logLinesAt ANDROID_LOG_ERROR (JNI_OnLoad vm host).2 = logLinesAt ANDROID_LOG_ERROR host
    ∧ registrations (JNI_OnLoad vm host).2 = registrations host := by
  rw [JNI_OnLoad_ok vm host hok]
  refine ⟨rfl, rfl, ?_, ?_, ?_, ?_⟩
  · simp [logLines]
  · simp [logLinesAt]
  · simp [logLinesAt, ANDROID_LOG_INFO, ANDROID_LOG_ERROR]
  · simp [registrations]

theorem JNI_OnLoad_success_trace_witness :
    (JNI_OnLoad ⟨fun _ => 0⟩ []).1 = JNI_VERSION_1_6
    ∧ (JNI_OnLoad ⟨fun _ => 0⟩ []).2
      = [] ++ [HostEffect.android_log_print ANDROID_LOG_INFO LOG_TAG "driveuploader JNI_OnLoad",
               HostEffect.GetEnv JNI_VERSION_1_6] :=
  ⟨(JNI_OnLoad_success_trace ⟨fun _ => 0⟩ [] (by decide)).1,
   (JNI_OnLoad_success_trace ⟨fun _ => 0⟩ [] (by decide)).2.1⟩

end GeoLocationProvider
